import Mathlib

/-!
Verification of the emulator orchestrator (core.py) of the qiling
binary-emulation framework, against its natural-language specification.

The Python source is shallowly embedded: each relevant method of the
Qiling class is translated into an executable Lean definition operating
on explicit state values.  Addresses are modelled as Nat (Python ints,
non-negative in every call site of interest); where the source can
produce a negative value (the -1 sentinel of the library-base lookup)
Int is used.  Python lists become Lean lists, bytes become List Nat.
-/

namespace QilingCore

/-- A memory-map registry entry.  The source keeps these as 4-element
mutable lists [mem_s, mem_e, mem_p, mem_info] inside self.map_info:
start address, end address, permission string, provenance label. -/
structure MapEntry where
  s : Nat
  e : Nat
  p : String
  info : String
deriving DecidableEq, Repr

/-- The for-loop of Qiling.insert_map_info (core.py lines 680-709).
It walks the existing registry in order, copying entries that end
before the new range, inserting the new entry [mem_s, mem_e, mem_p,
mem_info] exactly once (guarded by insert_flag), and splitting any
overlapped entry into an optional left piece [s, mem_s, mem_p, info]
and an optional right piece [mem_e, e, mem_p, info].  Note the source
gives both pieces the NEW permissions mem_p while keeping the old
label info.  The trailing "if insert_flag == 0: append" of the source
is the flag = false case of the [] branch; it also covers the
len(map_info) == 0 special case at line 680. -/
def insertLoop (ms me : Nat) (mp mi : String) : Bool → List MapEntry → List MapEntry
  | flag, [] => if flag then [] else [⟨ms, me, mp, mi⟩]
  | flag, x :: rest =>
      if x.e ≤ ms then
        x :: insertLoop ms me mp mi flag rest
      else if me ≤ x.s then
        (if flag then [x] else [⟨ms, me, mp, mi⟩, x]) ++ insertLoop ms me mp mi true rest
      else
        ((if x.s < ms then [⟨x.s, ms, mp, x.info⟩] else []) ++
         (if flag then [] else [⟨ms, me, mp, mi⟩]) ++
         (if me < x.e then [⟨me, x.e, mp, x.info⟩] else [])) ++
        insertLoop ms me mp mi true rest

/-- The second pass of Qiling.insert_map_info (core.py lines 710-717),
with acc playing the role of map_info[-1].  An incoming entry is merged
into acc exactly when s == map_info[-1][1] (the accumulated end) and
info == map_info[-1][2].  Index 2 of a registry entry is its
PERMISSION string, so the source compares the incoming label against
the accumulated entry's perms; merging only extends the accumulated
end (map_info[-1][1] = e). -/
def coalesceAux (acc : MapEntry) : List MapEntry → List MapEntry
  | [] => [acc]
  | x :: rest =>
      if x.s = acc.e ∧ x.info = acc.p then
        coalesceAux { acc with e := x.e } rest
      else
        acc :: coalesceAux x rest

/-- Wrapper seeding the second pass with tmp_map_info[0]. -/
def coalescePass : List MapEntry → List MapEntry
  | [] => []
  | x :: rest => coalesceAux x rest

/-- Qiling.insert_map_info (core.py lines 676-719): build tmp_map_info
with the insertion loop, then run the left-to-right merge pass and
store the result back into self.map_info. -/
def insert_map_info (ms me : Nat) (mp mi : String) (mapInfo : List MapEntry) : List MapEntry :=
  coalescePass (insertLoop ms me mp mi false mapInfo)

/-- The registry produced by a sequence of insert_map_info calls
(ms, me, mp, mi) starting from the empty registry self.map_info = []
set up by Qiling.__init__ (core.py line 100). -/
def runInserts (calls : List (Nat × Nat × String × String)) : List MapEntry :=
  calls.foldl (fun m c => insert_map_info c.1 c.2.1 c.2.2.1 c.2.2.2 m) []

/-- Bool rendering of the claimed registry invariant: every adjacent
pair is either separated by a gap (end_i < start_succ) or carries
different labels. -/
def adjacentGapOrLabelDiff : List MapEntry → Bool
  | x :: y :: rest =>
      (decide (x.e < y.s) || decide (x.info ≠ y.info)) && adjacentGapOrLabelDiff (y :: rest)
  | _ => true

/-- Bool rendering of the guarantee the merge pass actually enforces:
no adjacent pair is mergeable, i.e. never both start_succ = end_i and
label_succ = perms_i. -/
def noAdjacentMergeable : List MapEntry → Bool
  | x :: y :: rest =>
      (!(decide (y.s = x.e) && decide (y.info = x.p))) && noAdjacentMergeable (y :: rest)
  | _ => true

/-- The QL_ENDIAN_EL / QL_ENDIAN_EB tags of qiling.const that
self.archendian holds. -/
inductive QlEndian
  | el
  | eb
deriving DecidableEq, Repr

/-- Little-endian expansion of x into w bytes.  This is the layout
struct.pack produces in native order on the little-endian hosts the
framework targets (the spec words this as native-little). -/
def bytesLE : Nat → Nat → List Nat
  | 0, _ => []
  | w + 1, x => x % 256 :: bytesLE w (x / 256)

/-- Little-endian recomposition of a byte list (struct.unpack in
native order). -/
def fromBytesLE : List Nat → Nat
  | [] => 0
  | b :: rest => b + 256 * fromBytesLE rest

/-- Qiling.pack64 (core.py lines 522-523): struct.pack format Q packs
an unsigned 64-bit word in native (little) order, never consulting
archendian; out-of-range values raise struct.error, modelled none. -/
def pack64 (x : Nat) : Option (List Nat) :=
  if x < 2 ^ 64 then some (bytesLE 8 x) else none

/-- Qiling.pack32 (core.py lines 534-538): big-endian when
archendian == QL_ENDIAN_EB, else native (little). -/
def pack32 (endian : QlEndian) (x : Nat) : Option (List Nat) :=
  if x < 2 ^ 32 then
    some (if endian = .eb then (bytesLE 4 x).reverse else bytesLE 4 x)
  else none

/-- Qiling.unpack64 (core.py lines 519-520): struct.unpack format Q,
native order, requires exactly 8 bytes. -/
def unpack64 (bs : List Nat) : Option Nat :=
  if bs.length = 8 then some (fromBytesLE bs) else none

/-- Qiling.unpack32 (core.py lines 528-532): big-endian when
archendian == QL_ENDIAN_EB, else native order, on exactly 4 bytes. -/
def unpack32 (endian : QlEndian) (bs : List Nat) : Option Nat :=
  if bs.length = 4 then
    some (fromBytesLE (if endian = .eb then bs.reverse else bs))
  else none

/-- Qiling.pack (core.py lines 567-573): dispatch on archbit, bare
raise (none) for any other width. -/
def pack (archbit : Nat) (endian : QlEndian) (x : Nat) : Option (List Nat) :=
  if archbit = 64 then pack64 x
  else if archbit = 32 then pack32 endian x
  else none

/-- Qiling.unpack (core.py lines 575-581). -/
def unpack (archbit : Nat) (endian : QlEndian) (bs : List Nat) : Option Nat :=
  if archbit = 64 then unpack64 bs
  else if archbit = 32 then unpack32 endian bs
  else none

/-- Stated from the claim's words, for comparison with pack only: a
packer that picks the width from archbit and uses big-endian byte
order iff archendian is big, for BOTH widths. -/
def packClaimed (archbit : Nat) (endian : QlEndian) (x : Nat) : Option (List Nat) :=
  (if archbit = 64 then some 8 else if archbit = 32 then some 4 else none).bind
    fun width =>
      if x < 2 ^ (8 * width) then
        some (if endian = .eb then (bytesLE width x).reverse else bytesLE width x)
      else none

/-- Model of os.path.split(p)[1]: the suffix of p after its last
slash (the accumulator is the current segment, reversed). -/
def basenameAux : List Char → List Char → List Char
  | cur, [] => cur.reverse
  | cur, c :: rest => if c = '/' then basenameAux [] rest else basenameAux (c :: cur) rest

/-- os.path.split(info)[1] as used by Qiling.__get_lib_base. -/
def basename (p : String) : String :=
  String.mk (basenameAux [] p.data)

/-- Qiling.__get_lib_base (core.py lines 726-730): start address of
the first registry entry whose label's basename equals filename, else
the sentinel -1. -/
def get_lib_base (mapInfo : List MapEntry) (filename : String) : Int :=
  match mapInfo.find? (fun en => basename en.info == filename) with
  | some en => (en.s : Int)
  | none => -1

/-- Qiling.enable_lib_patch (core.py lines 666-668): for EVERY pending
library patch an engine write is attempted at
__get_lib_base(filename) + addr.  There is no absent-base guard, so an
unmapped label yields base -1 and an attempted write at addr - 1.  The
result lists the attempted (address, bytes) writes in order. -/
def enable_lib_patch (mapInfo : List MapEntry)
    (patch_lib : List (Int × List Nat × String)) : List (Int × List Nat) :=
  patch_lib.map (fun q => (get_lib_base mapInfo q.2.2 + q.1, q.2.1))

/-- The two pending-patch lists of the Qiling instance
(core.py lines 96-97). -/
structure PatchState where
  patch_bin : List (Int × List Nat)
  patch_lib : List (Int × List Nat × String)
deriving DecidableEq, Repr

/-- Qiling.patch (core.py lines 593-597): file_name defaults to the
empty bytes b'' when absent; an empty name routes to patch_bin, any
other name is stored decoded in patch_lib. -/
def patch (st : PatchState) (addr : Int) (code : List Nat) (file_name : String) : PatchState :=
  if file_name = "" then
    { st with patch_bin := st.patch_bin ++ [(addr, code)] }
  else
    { st with patch_lib := st.patch_lib ++ [(addr, code, file_name)] }

/-- Qiling.__enable_bin_patch (core.py lines 662-664): write every
binary patch at self.loadbase + addr, in order. -/
def enable_bin_patch (loadbase : Int) (st : PatchState) : List (Int × List Nat) :=
  st.patch_bin.map (fun q => (loadbase + q.1, q.2))

/-- A Python exception value, as far as the hook bridge observes it:
BaseException covers everything, KeyboardInterrupt included. -/
inductive PyExn
  | keyboardInterrupt
  | exn (name : String)
deriving DecidableEq, Repr

/-- The THREAD_EVENT_* stop-reason constants used by Qiling.stop:
the default THREAD_EVENT_EXIT_GROUP_EVENT and the
THREAD_EVENT_UNEXECPT_EVENT passed by catch_KeyboardInterrupt
(spelling as in the source; the constants live in a module outside
src/ and are modelled as distinct tags). -/
inductive StopEvent
  | exit_group_event
  | unexecpt_event
deriving DecidableEq, Repr

/-- The current guest thread's stop state, as mutated by Qiling.stop
when a thread manager is active. -/
structure ThreadState where
  stopped : Bool
  stop_event : StopEvent
deriving DecidableEq, Repr

/-- The emulator state the hook bridge touches: the
internal_exception slot, whether the engine is still running
(uc.emu_stop clears it), and the optional thread manager's current
thread. -/
structure EmuState where
  internal_exception : Option PyExn
  engineRunning : Bool
  thread_management : Option ThreadState
deriving DecidableEq, Repr

/-- Qiling.stop (core.py lines 735-740): when a thread manager is
active, mark the current thread stopped with the given stop_event;
then stop the engine. -/
def ql_stop (stop_event : StopEvent) (st : EmuState) : EmuState :=
  { st with
      engineRunning := false,
      thread_management := st.thread_management.map (fun _ => ⟨true, stop_event⟩) }

/-- What a user callback does when the engine fires it: either it
returns, or it raises some BaseException. -/
inductive CbBehavior
  | ok
  | raises (e : PyExn)
deriving DecidableEq, Repr

/-- What Qiling passes to uc.hook_add for a given registration: either
the catch_KeyboardInterrupt-wrapped closure, or the user callback
handed over raw (the non-syscall branch of hook_insn,
core.py line 503). -/
inductive Registered
  | wrapped (cb : CbBehavior)
  | raw (cb : CbBehavior)
deriving DecidableEq, Repr

/-- What the engine observes when it invokes a registered callback:
either the call returns normally leaving the emulator in a state, or
an exception propagates across the engine boundary. -/
inductive EngineOutcome
  | returnsNormally (st : EmuState)
  | exceptionCrosses (e : PyExn) (st : EmuState)
deriving DecidableEq, Repr

/-- The wrapper produced by catch_KeyboardInterrupt (core.py lines
21-33): run the callback; on any BaseException e, call
ql.stop(stop_event=THREAD_EVENT_UNEXECPT_EVENT), then set
ql.internal_exception = e, and fall through (return None). -/
def catch_KeyboardInterrupt_wrapper (st : EmuState) (cb : CbBehavior) : EmuState :=
  match cb with
  | .ok => st
  | .raises e => { ql_stop .unexecpt_event st with internal_exception := some e }

/-- Engine-side invocation of a registered callback: a wrapped
callback always returns normally (the wrapper swallows the
exception); a raw callback lets the exception cross the boundary. -/
def fire (r : Registered) (st : EmuState) : EngineOutcome :=
  match r with
  | .wrapped cb => .returnsNormally (catch_KeyboardInterrupt_wrapper st cb)
  | .raw cb =>
      match cb with
      | .ok => .returnsNormally st
      | .raises e => .exceptionCrosses e st

/-- The UC_X86_INS_SYSCALL instruction id from unicorn.x86_const that
hook_insn compares arg1 against. -/
def UC_X86_INS_SYSCALL : Nat := 699

/-- The hook kinds named by the claim; insn carries the arg1
instruction id that hook_insn dispatches on. -/
inductive HookKind
  | code
  | block
  | intr
  | address
  | mem_read
  | mem_write
  | mem_fetch
  | mem_unmapped
  | mem_read_invalid
  | mem_write_invalid
  | mem_fetch_invalid
  | mem_invalid
  | insn (arg1 : Nat)
deriving DecidableEq, Repr

/-- What each hook_xxx registration hands to uc.hook_add
(core.py lines 317-503): every kind wraps its closure with
catch_KeyboardInterrupt, except hook_insn, which wraps only when
arg1 == UC_X86_INS_SYSCALL and otherwise passes the user callback
raw (line 503). -/
def registeredFor (k : HookKind) (cb : CbBehavior) : Registered :=
  match k with
  | .insn arg1 => if arg1 = UC_X86_INS_SYSCALL then .wrapped cb else .raw cb
  | _ => .wrapped cb

/-- Whether a registration through the given kind goes through the
catch_KeyboardInterrupt bridge. -/
def isBridgedKind : HookKind → Bool
  | .insn arg1 => arg1 = UC_X86_INS_SYSCALL
  | _ => true

/-- A Python value as the hook wrappers and the constructor observe
it: only its type tag and truthiness matter here. -/
inductive PyVal
  | none
  | int (n : Int)
  | str (s : String)
  | bool (b : Bool)
  | listv (l : List Nat)
  | dictv (entries : List (String × Nat))
deriving DecidableEq, Repr

/-- Python truthiness: None, 0, empty string, False, empty list and
empty dict are falsy. -/
def PyVal.truthy : PyVal → Bool
  | .none => false
  | .int n => n ≠ 0
  | .str s => s ≠ ""
  | .bool b => b
  | .listv l => !l.isEmpty
  | .dictv entries => !entries.isEmpty

/-- The argument tuple a bridged wrapper passes to the user callback
(self is the emulator itself). -/
inductive CbArg
  | emu
  | nat (n : Nat)
  | val (ud : PyVal)
deriving DecidableEq, Repr

/-- The hook_code wrapper body (core.py lines 319-326): pass user_data
only when it is truthy, else call back without it. -/
def hook_code_invocation (user_data : PyVal) (addr size : Nat) : List CbArg :=
  if user_data.truthy then [.emu, .nat addr, .nat size, .val user_data]
  else [.emu, .nat addr, .nat size]

/-- The hook_block wrapper body (core.py lines 349-356), identical in
shape to hook_code. -/
def hook_block_invocation (user_data : PyVal) (addr size : Nat) : List CbArg :=
  if user_data.truthy then [.emu, .nat addr, .nat size, .val user_data]
  else [.emu, .nat addr, .nat size]

/-- The hook_intr wrapper body (core.py lines 334-341). -/
def hook_intr_invocation (user_data : PyVal) (intno : Nat) : List CbArg :=
  if user_data.truthy then [.emu, .nat intno, .val user_data]
  else [.emu, .nat intno]

/-- The hook_address wrapper body (core.py lines 434-441): the address
arguments from the engine are dropped. -/
def hook_address_invocation (user_data : PyVal) : List CbArg :=
  if user_data.truthy then [.emu, .val user_data]
  else [.emu]

/-- The wrapper body shared verbatim by all hook_mem_* registrations
(hook_mem_read, hook_mem_write, hook_mem_fetch, hook_mem_unmapped,
hook_mem_read_invalid, hook_mem_write_invalid,
hook_mem_fetch_invalid, hook_mem_invalid; core.py lines 361-486):
the engine's access argument is dropped. -/
def hook_mem_invocation (user_data : PyVal) (addr size value : Nat) : List CbArg :=
  if user_data.truthy then [.emu, .nat addr, .nat size, .nat value, .val user_data]
  else [.emu, .nat addr, .nat size, .nat value]

/-- The QL_OUTPUT modes after output_convert (core.py line 643). -/
inductive QlOutput
  | default
  | off
  | disasm
  | debug
  | dump
deriving DecidableEq, Repr

/-- The verbose/output guard of Qiling.__init__ (core.py line 217),
repeated verbatim in dprint (line 289).  Python parses
a or b and (c and d) with and binding tighter than or, so the guard
raises QlErrorOutput iff verbose is not an int, OR verbose > 99 AND
verbose > 0 AND output not in (QL_OUT_DEBUG, QL_OUT_DUMP).  Returns
true iff the exception is raised. -/
def verbose_check_raises (verbose : PyVal) (output : QlOutput) : Bool :=
  match verbose with
  | .int n =>
      decide (n > 99) &&
        (decide (n > 0) && !(decide (output = QlOutput.debug ∨ output = QlOutput.dump)))
  | _ => true

/-- Stated from the claim's words, for comparison only: reject when
verbose is not an int, when verbose > 99, or when verbose > 0 while
output is not debug/dump. -/
def verbose_check_claimed (verbose : PyVal) (output : QlOutput) : Bool :=
  match verbose with
  | .int n =>
      decide (n > 99) ||
        (decide (n > 0) && !(decide (output = QlOutput.debug ∨ output = QlOutput.dump)))
  | _ => true

/-- Lower-bounded well-formed chain: every entry is nonempty (s < e),
entries are sorted and disjoint (each end bounds the next start), and
the first start is at least b. -/
def chainFrom (b : Nat) : List MapEntry → Prop
  | [] => True
  | x :: rest => b ≤ x.s ∧ x.s < x.e ∧ chainFrom x.e rest

instance chainFromDecidable (b : Nat) (l : List MapEntry) : Decidable (chainFrom b l) := by
  induction l generalizing b with
  | nil => exact .isTrue trivial
  | cons x rest ih => exact @instDecidableAnd _ _ _ (@instDecidableAnd _ _ _ (ih x.e))

end QilingCore

namespace QilingCore

/-- Auxiliary: the head of the merge pass keeps the start, perms and
label of the seed entry; only the end may have been extended. -/
theorem coalesceAux_head (l : List MapEntry) : ∀ acc : MapEntry,
    ∃ e2 tl, coalesceAux acc l = ⟨acc.s, e2, acc.p, acc.info⟩ :: tl := by
  induction l with
  | nil =>
      intro acc
      exact ⟨acc.e, [], rfl⟩
  | cons x rest ih =>
      intro acc
      by_cases h : x.s = acc.e ∧ x.info = acc.p
      · obtain ⟨e2, tl, htl⟩ := ih { acc with e := x.e }
        exact ⟨e2, tl, by simpa [coalesceAux, h] using htl⟩
      · obtain ⟨e2, tl, htl⟩ := ih x
        refine ⟨acc.e, coalesceAux x rest, ?_⟩
        simp [coalesceAux, h]

/-- Auxiliary: a chain bound can be weakened. -/
theorem chainFrom_mono {b b' : Nat} (h : b ≤ b') : ∀ {l : List MapEntry},
    chainFrom b' l → chainFrom b l := by
  intro l
  cases l with
  | nil => intro _; trivial
  | cons x rest =>
      intro ⟨h1, h2, h3⟩
      exact ⟨le_trans h h1, h2, h3⟩

/-- Auxiliary: every start in a chain is at least the chain's bound. -/
theorem chainFrom_le_start : ∀ {l : List MapEntry} {b : Nat},
    chainFrom b l → ∀ x ∈ l, b ≤ x.s := by
  intro l
  induction l with
  | nil => intro b _ x hx; cases hx
  | cons y rest ih =>
      intro b ⟨h1, h2, h3⟩ x hx
      cases hx with
      | head => exact h1
      | tail _ hx' => exact le_trans (le_trans h1 (le_of_lt h2)) (ih h3 x hx')

/-- Auxiliary: a chain is pairwise sorted and disjoint. -/
theorem chainFrom_pairwise : ∀ {l : List MapEntry} {b : Nat},
    chainFrom b l → List.Pairwise (fun a c => a.s < c.s ∧ a.e ≤ c.s) l := by
  intro l
  induction l with
  | nil => intro b _; exact List.Pairwise.nil
  | cons x rest ih =>
      intro b ⟨h1, h2, h3⟩
      refine List.Pairwise.cons ?_ (ih h3)
      intro c hc
      have he := chainFrom_le_start h3 c hc
      exact ⟨lt_of_lt_of_le h2 he, he⟩

/-- Auxiliary: once the new entry has been emitted and all remaining
entries start at or beyond its end, the loop copies them verbatim. -/
theorem insertLoop_true_id (ms me : Nat) (mp mi : String) :
    ∀ (l : List MapEntry) (b : Nat), chainFrom b l → ms < me → me ≤ b →
      insertLoop ms me mp mi true l = l := by
  intro l
  induction l with
  | nil => intro b _ _ _; simp [insertLoop]
  | cons x rest ih =>
      intro b ⟨h1, h2, h3⟩ hmm hme
      have hc1 : ¬ (x.e ≤ ms) := by omega
      have hc2 : me ≤ x.s := by omega
      have := ih x.e h3 hmm (by omega)
      simp [insertLoop, hc1, hc2, this]

/-- Auxiliary: with the flag already set and every remaining start at
least ms, the loop's output is a chain bounded below by me. -/
theorem insertLoop_true_chain (ms me : Nat) (mp mi : String) :
    ∀ (l : List MapEntry) (b : Nat), chainFrom b l → ms < me → ms ≤ b →
      chainFrom me (insertLoop ms me mp mi true l) := by
  intro l
  induction l with
  | nil => intro b _ _ _; simp [insertLoop, chainFrom]
  | cons x rest ih =>
      intro b ⟨h1, h2, h3⟩ hmm hms
      by_cases hc1 : x.e ≤ ms
      · omega
      · by_cases hc2 : me ≤ x.s
        · have hid := insertLoop_true_id ms me mp mi rest x.e h3 hmm (by omega)
          simp only [insertLoop, if_neg hc1, if_pos hc2, if_pos rfl, hid]
          exact ⟨hc2, h2, h3⟩
        · have hpre : ¬ (x.s < ms) := by omega
          by_cases hsuf : me < x.e
          · have hid := insertLoop_true_id ms me mp mi rest x.e h3 hmm (by omega)
            simp only [insertLoop, if_neg hc1, if_neg hc2, if_neg hpre, if_pos hsuf, hid]
            exact ⟨le_refl me, hsuf, h3⟩
          · have := ih x.e h3 hmm (by omega)
            simpa [insertLoop, hc1, hc2, hpre, hsuf] using this

/-- Auxiliary: on a chain, the insertion loop (flag clear) produces a
chain bounded below by min b ms. -/
theorem insertLoop_false_chain (ms me : Nat) (mp mi : String) :
    ∀ (l : List MapEntry) (b : Nat), chainFrom b l → ms < me →
      chainFrom (min b ms) (insertLoop ms me mp mi false l) := by
  intro l
  induction l with
  | nil =>
      intro b _ hmm
      exact ⟨show min b ms ≤ ms by omega, hmm, trivial⟩
  | cons x rest ih =>
      intro b ⟨h1, h2, h3⟩ hmm
      by_cases hc1 : x.e ≤ ms
      · have hrec := ih x.e h3 hmm
        have hminx : min x.e ms = x.e := by omega
        rw [hminx] at hrec
        simp only [insertLoop, if_pos hc1]
        exact ⟨show min b ms ≤ x.s by omega, h2, hrec⟩
      · by_cases hc2 : me ≤ x.s
        · have hid := insertLoop_true_id ms me mp mi rest x.e h3 hmm (by omega)
          simp only [insertLoop, if_neg hc1, if_pos hc2, Bool.false_eq_true, if_neg, if_false]
          simp only [hid, List.cons_append, List.nil_append]
          exact ⟨show min b ms ≤ ms by omega, hmm, hc2, h2, h3⟩
        · by_cases hpre : x.s < ms
          · by_cases hsuf : me < x.e
            · have hid := insertLoop_true_id ms me mp mi rest x.e h3 hmm (by omega)
              simp only [insertLoop, if_neg hc1, if_neg hc2, if_pos hpre, if_pos hsuf, hid]
              simp only [List.cons_append, List.nil_append, List.append_nil]
              exact ⟨show min b ms ≤ x.s by omega, hpre, le_refl ms, hmm, le_refl me, hsuf, h3⟩
            · have hrec := insertLoop_true_chain ms me mp mi rest x.e h3 hmm (by omega)
              simp only [insertLoop, if_neg hc1, if_neg hc2, if_pos hpre, if_neg hsuf]
              simp only [List.cons_append, List.nil_append, List.append_nil]
              exact ⟨show min b ms ≤ x.s by omega, hpre, le_refl ms, hmm, hrec⟩
          · by_cases hsuf : me < x.e
            · have hid := insertLoop_true_id ms me mp mi rest x.e h3 hmm (by omega)
              simp only [insertLoop, if_neg hc1, if_neg hc2, if_neg hpre, if_pos hsuf, hid]
              simp only [List.cons_append, List.nil_append, List.append_nil]
              exact ⟨show min b ms ≤ ms by omega, hmm, le_refl me, hsuf, h3⟩
            · have hrec := insertLoop_true_chain ms me mp mi rest x.e h3 hmm (by omega)
              simp only [insertLoop, if_neg hc1, if_neg hc2, if_neg hpre, if_neg hsuf]
              simp only [List.nil_append, List.append_nil]
              exact ⟨show min b ms ≤ ms by omega, hmm, hrec⟩

/-- Auxiliary: the merge pass preserves chains (merging only fuses an
entry whose start equals the accumulated end). -/
theorem coalesceAux_chain : ∀ (l : List MapEntry) (acc : MapEntry) (b : Nat),
    b ≤ acc.s → acc.s < acc.e → chainFrom acc.e l → chainFrom b (coalesceAux acc l) := by
  intro l
  induction l with
  | nil =>
      intro acc b hb hacc _
      exact ⟨hb, hacc, trivial⟩
  | cons x rest ih =>
      intro acc b hb hacc ⟨h1, h2, h3⟩
      by_cases h : x.s = acc.e ∧ x.info = acc.p
      · have := ih { acc with e := x.e } b hb (by simp; omega) (by simpa using h3)
        simpa [coalesceAux, h] using this
      · have := ih x acc.e h1 h2 h3
        simp only [coalesceAux, if_neg h]
        exact ⟨hb, hacc, this⟩

/-- Auxiliary: the merge pass preserves chains. -/
theorem coalescePass_chain : ∀ (l : List MapEntry) (b : Nat),
    chainFrom b l → chainFrom b (coalescePass l) := by
  intro l
  cases l with
  | nil => intro b _; trivial
  | cons x rest =>
      intro b ⟨h1, h2, h3⟩
      exact coalesceAux_chain rest x b h1 h2 h3

/-- Auxiliary: one insert_map_info call with a nonempty range preserves
the chain invariant. -/
theorem insert_map_info_chain (ms me : Nat) (mp mi : String) (l : List MapEntry)
    (h : ms < me) (hl : chainFrom 0 l) :
    chainFrom 0 (insert_map_info ms me mp mi l) := by
  have hloop := insertLoop_false_chain ms me mp mi l 0 hl h
  have hmin : min 0 ms = 0 := by omega
  rw [hmin] at hloop
  exact coalescePass_chain _ 0 hloop

/-- Auxiliary: folding valid insert calls from any chain keeps the
chain invariant. -/
theorem runInserts_chain_aux : ∀ (calls : List (Nat × Nat × String × String))
    (acc : List MapEntry), chainFrom 0 acc → (∀ c ∈ calls, c.1 < c.2.1) →
    chainFrom 0 (calls.foldl (fun m c => insert_map_info c.1 c.2.1 c.2.2.1 c.2.2.2 m) acc) := by
  intro calls
  induction calls with
  | nil => intro acc hacc _; exact hacc
  | cons c rest ih =>
      intro acc hacc hv
      exact ih _ (insert_map_info_chain c.1 c.2.1 c.2.2.1 c.2.2.2 acc
        (hv c (List.mem_cons_self c rest)) hacc)
        (fun d hd => hv d (List.mem_cons_of_mem c hd))

/-- Auxiliary: the merge pass leaves no adjacent mergeable pair. -/
theorem coalesceAux_noMergeable (l : List MapEntry) : ∀ acc : MapEntry,
    noAdjacentMergeable (coalesceAux acc l) = true := by
  induction l with
  | nil =>
      intro acc
      simp [coalesceAux, noAdjacentMergeable]
  | cons x rest ih =>
      intro acc
      by_cases h : x.s = acc.e ∧ x.info = acc.p
      · simpa [coalesceAux, h] using ih { acc with e := x.e }
      · obtain ⟨e2, tl, htl⟩ := coalesceAux_head rest x
        have hrec := ih x
        simp only [coalesceAux, h, if_false]
        rw [htl] at hrec ⊢
        simp only [noAdjacentMergeable, hrec, Bool.and_true]
        simp only [not_and] at h
        by_cases hs : x.s = acc.e
        · simp [hs, h hs]
        · simp [hs]

end QilingCore

namespace QilingCore

/-- C2 counterexample: inserting (0x1000,0x2000,"r-x","a"),
(0x3000,0x4000,"r-x","a"), then (0x2000,0x3000,"r-x","a") into the
empty registry does NOT collapse to one entry: the merge pass compares
the incoming label against the previous entry's perms string ("a" vs
"r-x"), so three zero-gap equal-label entries remain, violating the
claimed adjacent-pair invariant. -/
theorem insert_coalesce_claim_cex :
    runInserts [(0x1000, 0x2000, "r-x", "a"), (0x3000, 0x4000, "r-x", "a"),
                (0x2000, 0x3000, "r-x", "a")] =
      [⟨0x1000, 0x2000, "r-x", "a"⟩, ⟨0x2000, 0x3000, "r-x", "a"⟩,
       ⟨0x3000, 0x4000, "r-x", "a"⟩] ∧
    adjacentGapOrLabelDiff
      (runInserts [(0x1000, 0x2000, "r-x", "a"), (0x3000, 0x4000, "r-x", "a"),
                   (0x2000, 0x3000, "r-x", "a")]) = false ∧
    runInserts [(0x1000, 0x2000, "r-x", "a"), (0x3000, 0x4000, "r-x", "a"),
                (0x2000, 0x3000, "r-x", "a")] ≠ [⟨0x1000, 0x4000, "r-x", "a"⟩] := by
  decide

/-- C2 amended: after every insert_map_info call, no adjacent pair of
entries both touches (start_succ = end_i) and has the successor's
label equal to the predecessor's perms string — that is the condition
the source's merge pass eliminates (it indexes field 2, the perms, of
the previous entry).  In particular adjacent equal-label zero-gap
entries whose label differs from the predecessor's perms are NOT
coalesced, and the three-insert example leaves three entries. -/
theorem insert_map_info_no_mergeable :
    (∀ (ms me : Nat) (mp mi : String) (l : List MapEntry),
        noAdjacentMergeable (insert_map_info ms me mp mi l) = true) ∧
    runInserts [(0x1000, 0x2000, "r-x", "a"), (0x3000, 0x4000, "r-x", "a"),
                (0x2000, 0x3000, "r-x", "a")] =
      [⟨0x1000, 0x2000, "r-x", "a"⟩, ⟨0x2000, 0x3000, "r-x", "a"⟩,
       ⟨0x3000, 0x4000, "r-x", "a"⟩] := by
  constructor
  · intro ms me mp mi l
    unfold insert_map_info
    cases h : insertLoop ms me mp mi false l with
    | nil => simp [coalescePass, noAdjacentMergeable]
    | cons x rest =>
        simp only [coalescePass]
        exact coalesceAux_noMergeable rest x
  · decide

/-- C3 counterexample: inserting (0x2000,0x3000,"rw-","b") into
[(0x1000,0x5000,"r-x","a")] gives the outer pieces the NEW perms
"rw-" (the source appends [s, mem_s, mem_p, info] and
[mem_e, e, mem_p, info]), not the old perms "r-x" that the claim
demands. -/
theorem insert_split_claim_cex :
    insert_map_info 0x2000 0x3000 "rw-" "b" [⟨0x1000, 0x5000, "r-x", "a"⟩] =
      [⟨0x1000, 0x2000, "rw-", "a"⟩, ⟨0x2000, 0x3000, "rw-", "b"⟩,
       ⟨0x3000, 0x5000, "rw-", "a"⟩] ∧
    insert_map_info 0x2000 0x3000 "rw-" "b" [⟨0x1000, 0x5000, "r-x", "a"⟩] ≠
      [⟨0x1000, 0x2000, "r-x", "a"⟩, ⟨0x2000, 0x3000, "rw-", "b"⟩,
       ⟨0x3000, 0x5000, "r-x", "a"⟩] := by
  decide

/-- C3 amended: when the new range falls strictly inside one existing
entry (s < start, end < e), the entry is split into three pieces: the
outer pieces keep the OLD label but take the NEW perms, and the centre
takes the new perms and label.  (The side conditions mi ≠ mp and
i ≠ mp keep the merge pass from fusing the touching pieces.) -/
theorem insert_map_info_split (s e : Nat) (p i : String) (ms me : Nat) (mp mi : String)
    (h1 : s < ms) (h2 : ms < me) (h3 : me < e) (h4 : mi ≠ mp) (h5 : i ≠ mp) :
    insert_map_info ms me mp mi [⟨s, e, p, i⟩] =
      [⟨s, ms, mp, i⟩, ⟨ms, me, mp, mi⟩, ⟨me, e, mp, i⟩] := by
  have hc1 : ¬ (e ≤ ms) := by omega
  have hc2 : ¬ (me ≤ s) := by omega
  simp [insert_map_info, insertLoop, hc1, hc2, h1, h3, coalescePass, coalesceAux, h4, h5]

/-- Witness for the C3 amended theorem at the claim's own example. -/
theorem insert_map_info_split_witness :
    insert_map_info 0x2000 0x3000 "rw-" "b" [⟨0x1000, 0x5000, "r-x", "a"⟩] =
      [⟨0x1000, 0x2000, "rw-", "a"⟩, ⟨0x2000, 0x3000, "rw-", "b"⟩,
       ⟨0x3000, 0x5000, "rw-", "a"⟩] :=
  insert_map_info_split 0x1000 0x5000 "r-x" "a" 0x2000 0x3000 "rw-" "b"
    (by decide) (by decide) (by decide) (by decide) (by decide)

/-- C7: for every sequence of insert_map_info calls each with
start < end, the registry built from the empty initial registry stays
sorted by start and pairwise non-overlapping (each earlier entry ends
at or before each later entry starts). -/
theorem insert_map_info_sorted_disjoint (calls : List (Nat × Nat × String × String))
    (h : ∀ c ∈ calls, c.1 < c.2.1) :
    List.Pairwise (fun a c => a.s < c.s ∧ a.e ≤ c.s) (runInserts calls) :=
  chainFrom_pairwise (runInserts_chain_aux calls [] trivial h)

/-- Witness for C7 at a concrete three-call sequence. -/
theorem insert_map_info_sorted_disjoint_witness :
    List.Pairwise (fun a c => a.s < c.s ∧ a.e ≤ c.s)
      (runInserts [(0x1000, 0x2000, "r-x", "a"), (0x4000, 0x5000, "rw-", "b"),
                   (0x1800, 0x4800, "r--", "c")]) :=
  insert_map_info_sorted_disjoint
    [(0x1000, 0x2000, "r-x", "a"), (0x4000, 0x5000, "rw-", "b"),
     (0x1800, 0x4800, "r--", "c")] (by decide)

/-- C8 counterexample: an empty range start = end is NOT ignored — on
the empty registry it inserts a zero-length entry, so the registry
contents change. -/
theorem insert_empty_range_claim_cex :
    insert_map_info 0x1000 0x1000 "r-x" "a" [] = [⟨0x1000, 0x1000, "r-x", "a"⟩] ∧
    insert_map_info 0x1000 0x1000 "r-x" "a" [] ≠ ([] : List MapEntry) := by
  decide

/-- C8 amended: a start = end call is processed like any other: on the
empty registry it appends the zero-length entry (start, start, perms,
label) instead of leaving the registry unchanged. -/
theorem insert_empty_range_appends (a : Nat) (p i : String) :
    insert_map_info a a p i [] = [⟨a, a, p, i⟩] := by
  simp [insert_map_info, insertLoop, coalescePass, coalesceAux]

end QilingCore

namespace QilingCore

/-- Auxiliary: the byte expansion has the requested width. -/
theorem bytesLE_length : ∀ (w x : Nat), (bytesLE w x).length = w := by
  intro w
  induction w with
  | zero => intro x; rfl
  | succ n ih => intro x; simp [bytesLE, ih]

/-- Auxiliary: recomposition inverts expansion for in-range words. -/
theorem fromBytesLE_bytesLE : ∀ (w x : Nat), x < 256 ^ w →
    fromBytesLE (bytesLE w x) = x := by
  intro w
  induction w with
  | zero =>
      intro x hx
      simp [pow_zero] at hx
      simp [bytesLE, fromBytesLE, hx]
  | succ n ih =>
      intro x hx
      have hdiv : x / 256 < 256 ^ n := by
        rw [Nat.div_lt_iff_lt_mul (by omega : 0 < 256)]
        calc x < 256 ^ (n + 1) := hx
        _ = 256 ^ n * 256 := by ring
      simp [bytesLE, fromBytesLE, ih (x / 256) hdiv]
      omega

/-- C5 counterexample: on a 64-bit big-endian configuration, pack
ignores archendian entirely (struct.pack format Q is native order),
so pack(0x0102030405060708) gives the little-endian bytes
[08,...,01], not the big-endian bytes the claim requires for both
widths. -/
theorem pack_endian_claim_cex :
    pack 64 QlEndian.eb 0x0102030405060708 =
      some [0x08, 0x07, 0x06, 0x05, 0x04, 0x03, 0x02, 0x01] ∧
    pack 64 QlEndian.eb 0x0102030405060708 ≠
      packClaimed 64 QlEndian.eb 0x0102030405060708 := by
  decide

/-- C5 amended: pack and unpack pick the 64-bit word for archbit = 64
and the 32-bit word for archbit = 32; the 32-bit pair honours
archendian (big-endian iff archendian is big, else native-little) but
the 64-bit pair always uses native-little order regardless of
archendian.  The claim's two concrete examples hold, and pack/unpack
round-trip at both widths. -/
theorem pack_unpack_amended :
    (∀ (endian : QlEndian) (x : Nat), pack 64 endian x = pack 64 QlEndian.el x) ∧
    pack 32 QlEndian.eb 0x01020304 = some [0x01, 0x02, 0x03, 0x04] ∧
    pack 64 QlEndian.el 0x0102030405060708 =
      some [0x08, 0x07, 0x06, 0x05, 0x04, 0x03, 0x02, 0x01] ∧
    (∀ (endian : QlEndian) (x : Nat), x < 2 ^ 64 →
      (pack 64 endian x).bind (unpack 64 endian) = some x) ∧
    (∀ (endian : QlEndian) (x : Nat), x < 2 ^ 32 →
      (pack 32 endian x).bind (unpack 32 endian) = some x) := by
  refine ⟨?_, by decide, by decide, ?_, ?_⟩
  · intro endian x
    simp [pack]
  · intro endian x hx
    norm_num at hx
    have h64 : x < 256 ^ 8 := by norm_num; omega
    simp [pack, pack64, unpack, unpack64, hx, bytesLE_length, fromBytesLE_bytesLE 8 x h64]
  · intro endian x hx
    norm_num at hx
    have h32 : x < 256 ^ 4 := by norm_num; omega
    cases endian with
    | el =>
        simp [pack, pack32, unpack, unpack32, hx, bytesLE_length,
          fromBytesLE_bytesLE 4 x h32]
    | eb =>
        simp [pack, pack32, unpack, unpack32, hx, bytesLE_length,
          fromBytesLE_bytesLE 4 x h32]

/-- Witness for the C5 amended theorem: the 32-bit big-endian
round-trip at the claim's example word. -/
theorem pack_unpack_amended_witness :
    (pack 32 QlEndian.eb 0x01020304).bind (unpack 32 QlEndian.eb) = some 0x01020304 :=
  pack_unpack_amended.2.2.2.2 QlEndian.eb 0x01020304 (by decide)

/-- C4 counterexample: a pending library patch whose label has no base
in the registry is NOT skipped — __get_lib_base returns the sentinel
-1 and enable_lib_patch still attempts the write, at -1 + 0x10 = 0xF
here, so the attempted-write list is not empty as the claim demands. -/
theorem lib_patch_skip_claim_cex :
    enable_lib_patch [] [(0x10, [0xCC], "libfoo.so")] = [(0xF, [0xCC])] ∧
    enable_lib_patch [] [(0x10, [0xCC], "libfoo.so")] ≠ [] := by
  decide

/-- C4 amended: every pending library patch produces an attempted
write (none is skipped: the output has one write per patch, in
order), at __get_lib_base(label) + addr; the base is the start of the
first registry entry whose label basename matches when one exists,
and the sentinel -1 otherwise, so an unmapped label is written at
addr - 1 rather than skipped. -/
theorem enable_lib_patch_writes (m : List MapEntry) (addr : Int) (code : List Nat)
    (fn : String) (rest : List (Int × List Nat × String)) :
    (enable_lib_patch m ((addr, code, fn) :: rest) =
      (get_lib_base m fn + addr, code) :: enable_lib_patch m rest) ∧
    (m.find? (fun en => basename en.info == fn) = none → get_lib_base m fn = -1) ∧
    (∀ en, m.find? (fun en2 => basename en2.info == fn) = some en →
      get_lib_base m fn = (en.s : Int)) ∧
    (enable_lib_patch m ((addr, code, fn) :: rest)).length = rest.length + 1 := by
  refine ⟨rfl, ?_, ?_, ?_⟩
  · intro h
    simp [get_lib_base, h]
  · intro en h
    simp [get_lib_base, h]
  · simp [enable_lib_patch]

/-- Witness for the C4 amended theorem: an unmapped label keeps the
sentinel base -1, while a mapped label is written at base + addr. -/
theorem enable_lib_patch_writes_witness :
    get_lib_base ([] : List MapEntry) "libfoo.so" = -1 ∧
    enable_lib_patch [⟨0x7000, 0x8000, "r-x", "libc.so"⟩] [(4, [0x90], "libc.so")] =
      [(0x7004, [0x90])] := by
  constructor
  · exact (enable_lib_patch_writes [] 0 [] "libfoo.so" []).2.1 rfl
  · have h := enable_lib_patch_writes [⟨0x7000, 0x8000, "r-x", "libc.so"⟩] 4 [0x90] "libc.so" []
    have hb := h.2.2.1 ⟨0x7000, 0x8000, "r-x", "libc.so"⟩ rfl
    rw [h.1, hb]
    rfl

/-- C9: patch routes on the label: an empty or absent label (the
default b'') appends (addr, code) to patch_bin, leaving patch_lib
unchanged, and __enable_bin_patch later writes it at loadbase + addr;
a non-empty label appends (addr, code, label) to patch_lib, leaving
patch_bin unchanged. -/
theorem patch_routes (st : PatchState) (addr : Int) (code : List Nat) (fn : String) :
    (fn = "" →
      patch st addr code fn =
        { patch_bin := st.patch_bin ++ [(addr, code)], patch_lib := st.patch_lib } ∧
      ∀ loadbase, enable_bin_patch loadbase (patch st addr code fn) =
        enable_bin_patch loadbase st ++ [(loadbase + addr, code)]) ∧
    (fn ≠ "" →
      patch st addr code fn =
        { patch_bin := st.patch_bin, patch_lib := st.patch_lib ++ [(addr, code, fn)] }) := by
  constructor
  · intro h
    constructor
    · simp [patch, h]
    · intro lb
      simp [patch, h, enable_bin_patch]
  · intro h
    simp [patch, h]

/-- Witness for C9 at an empty patch state, with an empty and a
non-empty label. -/
theorem patch_routes_witness :
    patch ⟨[], []⟩ 8 [0x90] "" = ⟨[(8, [0x90])], []⟩ ∧
    patch ⟨[], []⟩ 8 [0x90] "libc.so" = ⟨[], [(8, [0x90], "libc.so")]⟩ := by
  constructor
  · exact ((patch_routes ⟨[], []⟩ 8 [0x90] "").1 rfl).1
  · exact (patch_routes ⟨[], []⟩ 8 [0x90] "libc.so").2 (by decide)

end QilingCore

namespace QilingCore

/-- C1 counterexample: hook_insn with arg1 distinct from
UC_X86_INS_SYSCALL (here 0) registers the user callback raw
(core.py line 503), so a raising callback lets the exception cross
the engine boundary instead of returning normally with
internal_exception set. -/
theorem hook_exception_claim_cex :
    fire (registeredFor (HookKind.insn 0) (CbBehavior.raises (PyExn.exn "boom")))
        ⟨Option.none, true, Option.none⟩ =
      EngineOutcome.exceptionCrosses (PyExn.exn "boom") ⟨Option.none, true, Option.none⟩ := by
  decide

/-- C1 amended: for every hook registration that actually goes
through the catch_KeyboardInterrupt bridge — hook_code, hook_block,
hook_intr, hook_address, every hook_mem_* variant, and hook_insn only
when arg1 is UC_X86_INS_SYSCALL — a callback raising any
BaseException makes the wrapper return normally to the engine with
the exception recorded in internal_exception, the engine stopped, and
the current thread (when a thread manager is active) stopped with the
UNEXECPT stop event.  hook_insn with any other arg1 passes the
callback to the engine unwrapped. -/
theorem bridged_hook_catches (k : HookKind) (e : PyExn) (st : EmuState)
    (h : isBridgedKind k = true) :
    fire (registeredFor k (CbBehavior.raises e)) st =
      EngineOutcome.returnsNormally
        { internal_exception := some e,
          engineRunning := false,
          thread_management :=
            st.thread_management.map (fun _ => ⟨true, StopEvent.unexecpt_event⟩) } := by
  cases k <;>
    simp_all [isBridgedKind, registeredFor, fire, catch_KeyboardInterrupt_wrapper, ql_stop]

/-- Witness for the C1 amended theorem: a code hook raising
KeyboardInterrupt with an active thread manager. -/
theorem bridged_hook_catches_witness :
    fire (registeredFor HookKind.code (CbBehavior.raises PyExn.keyboardInterrupt))
        ⟨Option.none, true, some ⟨false, StopEvent.exit_group_event⟩⟩ =
      EngineOutcome.returnsNormally
        ⟨some PyExn.keyboardInterrupt, false, some ⟨true, StopEvent.unexecpt_event⟩⟩ :=
  bridged_hook_catches HookKind.code PyExn.keyboardInterrupt
    ⟨Option.none, true, some ⟨false, StopEvent.exit_group_event⟩⟩ rfl

/-- C10: every bridged wrapper tests user_data for Python truthiness,
so registering with any falsy user_data (0, empty string, False,
empty list, empty dict) invokes the user callback with exactly the
argument tuple used when no user_data was given (default None), for
hook_code, hook_block, hook_intr, hook_address and all hook_mem_*
variants; in particular the user_data argument is omitted. -/
theorem falsy_user_data_omitted (ud : PyVal) (h : ud.truthy = false) :
    (∀ addr size, hook_code_invocation ud addr size =
      hook_code_invocation PyVal.none addr size) ∧
    (∀ addr size, hook_block_invocation ud addr size =
      hook_block_invocation PyVal.none addr size) ∧
    (∀ intno, hook_intr_invocation ud intno = hook_intr_invocation PyVal.none intno) ∧
    hook_address_invocation ud = hook_address_invocation PyVal.none ∧
    (∀ addr size value, hook_mem_invocation ud addr size value =
      hook_mem_invocation PyVal.none addr size value) ∧
    (∀ addr size, hook_code_invocation ud addr size =
      [CbArg.emu, CbArg.nat addr, CbArg.nat size]) := by
  refine ⟨fun a s => ?_, fun a s => ?_, fun i => ?_, ?_, fun a s v => ?_, fun a s => ?_⟩ <;>
    simp [hook_code_invocation, hook_block_invocation, hook_intr_invocation,
      hook_address_invocation, hook_mem_invocation, h] <;> rfl

/-- Witness for C10: user_data = 0 is falsy and the code-hook callback
is invoked without it. -/
theorem falsy_user_data_omitted_witness :
    hook_code_invocation (PyVal.int 0) 0x1000 4 =
      [CbArg.emu, CbArg.nat 0x1000, CbArg.nat 4] :=
  (falsy_user_data_omitted (PyVal.int 0) (by decide)).2.2.2.2.2 0x1000 4

/-- C6: the guard at core.py line 217 parses as
(not isinstance) or (verbose > 99 and (verbose > 0 and output not in
(debug, dump))) — Python's and binds tighter than or — so it ACCEPTS
verbose = 100 with output = debug (the claim, and the code's own
error message "verbose required input as int and less than 99",
demand rejection) and ACCEPTS verbose = 5 with output = default (the
claim demands rejection of verbose > 0 without debug/dump); the
claim-side predicate rejects both.  Non-int verbose is rejected and
an in-range verbose with debug output is accepted, as claimed. -/
theorem verbose_guard_precedence_bug :
    verbose_check_raises (PyVal.int 100) QlOutput.debug = false ∧
    verbose_check_raises (PyVal.int 5) QlOutput.default = false ∧
    verbose_check_claimed (PyVal.int 100) QlOutput.debug = true ∧
    verbose_check_claimed (PyVal.int 5) QlOutput.default = true ∧
    verbose_check_raises (PyVal.str "high") QlOutput.debug = true ∧
    verbose_check_raises (PyVal.int 50) QlOutput.debug = false ∧
    verbose_check_raises (PyVal.int 150) QlOutput.default = true := by
  decide

end QilingCore
